import Mathlib

/-!
Verification development for the audio-tagger repository
(scripts/discogs_lookup.py and scripts/tag_audio.py).

The Python code is shallowly embedded: dynamic JSON dictionary values that
the code inspects (the "year" and "id" fields of a search row) are modelled
by the small value type `PyVal`; list-valued fields with a default of the
empty list are modelled as Lean lists; network calls are modelled as
explicit inputs (the search response is a list argument, the per-release
detail fetch is a function argument whose `none` result models a raised
exception caught by the `except` handler around the verification fetch).
-/

/-- A dynamically typed value as the Python code sees it: the relevant
cases are a missing key (`vNone`), an integer, and a string. -/
inductive PyVal where
  | vNone
  | vInt (n : Int)
  | vStr (s : String)
deriving DecidableEq, Repr

/-- Python truthiness of a `PyVal`: `None` is falsy, `0` is falsy, the
empty string is falsy. -/
def pyTruthy : PyVal → Bool
  | PyVal.vNone => false
  | PyVal.vInt n => n != 0
  | PyVal.vStr s => s != ""

/-- Python `isinstance(x, int)` on a `PyVal`. -/
def pyIsInt : PyVal → Bool
  | PyVal.vInt _ => true
  | _ => false

/-- How a `PyVal` renders inside an f-string. -/
def pyRepr : PyVal → String
  | PyVal.vNone => "None"
  | PyVal.vInt n => toString n
  | PyVal.vStr s => s

/-- One row of the Discogs search response, holding exactly the keys
`find_earliest_release` reads: `id`, `year`, `genre`, `style`, `label`,
`format`, `country`.  The list-valued keys default to `[]` when absent
(the code uses `.get(key, [])` or guards with truthiness), so a missing
list key is modelled by the empty list; `country` uses `.get` with a
`None` default, modelled by `Option`. -/
structure SearchRow where
  id : PyVal
  year : PyVal
  genre : List String
  style : List String
  label : List String
  format : List String
  country : Option String
deriving DecidableEq, Repr

/-- The release-detail payload of `get_release_details`, holding the keys
the code reads: `genres`, `styles`, `labels` (a list of dicts, of which
only the optional `name` of the first is used, hence `List (Option
String)`), and `tracklist` (of which only each entry's title, defaulted to
`""`, is used, hence `List String`). -/
structure ReleaseDetails where
  genres : List String
  styles : List String
  labels : List (Option String)
  tracklist : List String
deriving DecidableEq, Repr

/-- The `DiscogsResult` dataclass of discogs_lookup.py. -/
structure DiscogsResult where
  artist : String
  title : String
  year : PyVal
  genres : List String
  styles : List String
  label : Option String
  release_id : PyVal
  release_url : String
  format : Option String
  country : Option String
deriving DecidableEq, Repr

/-- Python substring test `needle in hay` on character lists: the needle
is a prefix of some suffix of the hay. -/
def isSubChars (needle : List Char) : List Char → Bool
  | [] => needle.isEmpty
  | c :: t => needle.isPrefixOf (c :: t) || isSubChars needle t

/-- Python substring test `needle in hay` on strings. -/
def strIn (needle hay : String) : Bool :=
  isSubChars needle.data hay.data

/-- Python `str.lower()`, modelled characterwise. -/
def pyLower (s : String) : String :=
  String.mk (s.data.map Char.toLower)

/-- The whitespace characters `str.strip()` removes (space, tab, newline,
carriage return, vertical tab, form feed). -/
def isPyWS (c : Char) : Bool :=
  c == ' ' || c == '\t' || c == '\n' || c == '\r' ||
    c == Char.ofNat 11 || c == Char.ofNat 12

/-- Python `str.strip()`: drop leading and trailing whitespace. -/
def pyStrip (l : List Char) : List Char :=
  ((l.dropWhile isPyWS).reverse.dropWhile isPyWS).reverse

/-- `track_on_release` of discogs_lookup.py: the supplied title matches a
release when, after lowercasing both, some track title contains it or is
contained in it. -/
def track_on_release (details : ReleaseDetails) (title : String) : Bool :=
  let titleLower := pyLower title
  details.tracklist.any fun t =>
    let trackTitle := pyLower t
    strIn titleLower trackTitle || strIn trackTitle titleLower

/-- The candidate filter of `find_earliest_release`
(`if year and isinstance(year, int) and year > 1900`): the year value must
be truthy, an integer, and greater than 1900. -/
def keepCandidate (r : SearchRow) : Bool :=
  pyTruthy r.year && pyIsInt r.year &&
    (match r.year with
     | PyVal.vInt n => decide (1900 < n)
     | _ => false)

/-- The sort key `lambda x: x.get("year", 9999)`.  After filtering every
candidate has an integer year; the default branch mirrors the `.get`
default. -/
def yearKey (r : SearchRow) : Int :=
  match r.year with
  | PyVal.vInt n => n
  | _ => 9999

/-- `candidates.sort(key=...)`: Python list sort is stable and ascending
by key, which is exactly `List.mergeSort` with the key comparison. -/
def sortCands (cs : List SearchRow) : List SearchRow :=
  cs.mergeSort fun a b => decide (yearKey a ≤ yearKey b)

/-- `candidate.get(key, [""])[0] if candidate.get(key) else None`:
the head of a string list, or `None` when the list is empty or absent. -/
def headStr : List String → Option String
  | [] => none
  | s :: _ => some s

/-- `details.get("labels", [{}])[0].get("name") if details.get("labels")
else None`: the (optional) name of the first label dict. -/
def headOptStr : List (Option String) → Option String
  | [] => none
  | o :: _ => o

/-- The `DiscogsResult` built on a verified match: genres, styles and
label come from the release-detail payload; year, format and country come
from the search candidate row. -/
def buildVerified (artist title : String) (c : SearchRow) (d : ReleaseDetails) :
    DiscogsResult :=
  { artist := artist
    title := title
    year := c.year
    genres := d.genres
    styles := d.styles
    label := headOptStr d.labels
    release_id := c.id
    release_url := "https://www.discogs.com/release/" ++ pyRepr c.id
    format := headStr c.format
    country := c.country }

/-- The `DiscogsResult` built directly from a search candidate row (the
unverified return and the fallback return share this construction
verbatim in the source). -/
def buildUnverified (artist title : String) (c : SearchRow) : DiscogsResult :=
  { artist := artist
    title := title
    year := c.year
    genres := c.genre
    styles := c.style
    label := headStr c.label
    release_id := c.id
    release_url := "https://www.discogs.com/release/" ++ pyRepr c.id
    format := headStr c.format
    country := c.country }

/-- The candidate loop of `find_earliest_release`.  `fetch` models
`get_release_details`; its `none` result models a raised exception, which
the `except` handler turns into `continue`.  A candidate with a falsy
`id` takes the unverified branch even when verification is on. -/
def loopCands (artist title : String) (verify : Bool)
    (fetch : PyVal → Option ReleaseDetails) : List SearchRow → Option DiscogsResult
  | [] => none
  | c :: rest =>
    if verify && pyTruthy c.id then
      match fetch c.id with
      | none => loopCands artist title verify fetch rest
      | some details =>
        if track_on_release details title then
          some (buildVerified artist title c details)
        else
          loopCands artist title verify fetch rest
    else
      some (buildUnverified artist title c)

/-- `find_earliest_release` of discogs_lookup.py, as a function of the
already-received search response `results`.  The empty-response early
return, the filter, the stable sort, the candidate loop and the
unverified fallback mirror the source line by line. -/
def find_earliest_release (artist title : String) (verify : Bool)
    (fetch : PyVal → Option ReleaseDetails) (results : List SearchRow) :
    Option DiscogsResult :=
  if results.isEmpty then none
  else
    let candidates := sortCands (results.filter keepCandidate)
    match loopCands artist title verify fetch candidates with
    | some r => some r
    | none =>
      match candidates with
      | [] => none
      | c :: _ => some (buildUnverified artist title c)

/-- The call `results = search_discogs(artist, title, token)` stands
outside any try block in `find_earliest_release`, so an exception raised
by the search request (modelled by `Except.error`) propagates to the
caller unchanged. -/
def find_earliest_release_run (artist title : String) (verify : Bool)
    (fetch : PyVal → Option ReleaseDetails)
    (search : Except String (List SearchRow)) :
    Except String (Option DiscogsResult) :=
  match search with
  | Except.error e => Except.error e
  | Except.ok results => Except.ok (find_earliest_release artist title verify fetch results)

/-!
Filename parser of tag_audio.py.

`parse_filename` escapes the pattern, substitutes `{artist}` with the
lazy group `(?P<artist>.+?)` and `{title}` with the greedy group
`(?P<title>.+)`, and matches the whole filename stem case-insensitively.
The embedding tokenizes the pattern into literal runs and the two
captures, and runs an anchored backtracking matcher with Python
preference order: the lazy capture tries shorter lengths first, the
greedy capture longer lengths first, and `.` never matches a newline.
-/

/-- A compiled token of the constructed regex: a literal run (matched
case-insensitively, since the match uses `re.IGNORECASE`), the lazy
artist capture, or the greedy title capture. -/
inductive Tok where
  | lit (s : List Char)
  | capA
  | capT
deriving DecidableEq, Repr

/-- The placeholder text replaced by the artist capture, as an explicit
character list (it equals the characters of the placeholder string). -/
def artistPh : List Char := ['{', 'a', 'r', 't', 'i', 's', 't', '}']

/-- The placeholder text replaced by the title capture, as an explicit
character list (it equals the characters of the placeholder string). -/
def titlePh : List Char := ['{', 't', 'i', 't', 'l', 'e', '}']

/-- Flush the accumulated literal run (kept reversed) in front of the
token list; an empty run produces no token. -/
def pushLit (acc : List Char) (ts : List Tok) : List Tok :=
  if acc.isEmpty then ts else Tok.lit acc.reverse :: ts

/-- Scan the pattern left to right, replacing each occurrence of
`{artist}` and `{title}` with its capture token and collecting the
remaining characters into literal runs.  (The two placeholder strings
cannot overlap each other, so this single scan agrees with the two
sequential `str.replace` calls of the source.) -/
def tokenizeAux (acc : List Char) : List Char → List Tok
  | '{' :: 'a' :: 'r' :: 't' :: 'i' :: 's' :: 't' :: '}' :: rest =>
    pushLit acc (Tok.capA :: tokenizeAux [] rest)
  | '{' :: 't' :: 'i' :: 't' :: 'l' :: 'e' :: '}' :: rest =>
    pushLit acc (Tok.capT :: tokenizeAux [] rest)
  | c :: rest => tokenizeAux (c :: acc) rest
  | [] => pushLit acc []

/-- Tokenize a pattern string. -/
def tokenize (pattern : String) : List Tok :=
  tokenizeAux [] pattern.data

/-- The regex `.` (without DOTALL) matches every character except a
newline, so a capture chunk must be newline-free. -/
def noNl (l : List Char) : Bool :=
  l.all fun c => c != '\n'

/-- Case-insensitive literal match: strip the literal from the front of
the input, comparing lowercased characters (`re.IGNORECASE`). -/
def stripPrefixCI : List Char → List Char → Option (List Char)
  | [], s => some s
  | _ :: _, [] => none
  | p :: ps, c :: cs =>
    if p.toLower = c.toLower then stripPrefixCI ps cs else none

/-- Candidate lengths for the lazy capture `.+?`: 1 up to `n`, shortest
first. -/
def upLens : Nat → List Nat
  | 0 => []
  | n + 1 => upLens n ++ [n + 1]

/-- Candidate lengths for the greedy capture `.+`: `n` down to 1, longest
first. -/
def downLens (n : Nat) : List Nat :=
  (upLens n).reverse

/-- Return the first success of `f` along the candidate list, in order:
this is the backtracking preference order of the regex engine. -/
def firstSome (ns : List Nat) (f : Nat → Option α) : Option α :=
  match ns with
  | [] => none
  | n :: rest =>
    match f n with
    | some r => some r
    | none => firstSome rest f

/-- The two named capture groups of the constructed regex, each `none`
until its capture token has matched. -/
abbrev Groups := Option (List Char) × Option (List Char)

/-- Anchored backtracking matcher for the token list against the stem,
with Python preference order for the lazy and greedy captures. -/
def mtch : List Tok → List Char → Option Groups
  | [], s => if s.isEmpty then some (none, none) else none
  | Tok.lit l :: ts, s =>
    match stripPrefixCI l s with
    | some rest => mtch ts rest
    | none => none
  | Tok.capA :: ts, s =>
    firstSome (upLens s.length) fun n =>
      if noNl (s.take n) then
        match mtch ts (s.drop n) with
        | some (_, t) => some (some (s.take n), t)
        | none => none
      else none
  | Tok.capT :: ts, s =>
    firstSome (downLens s.length) fun n =>
      if noNl (s.take n) then
        match mtch ts (s.drop n) with
        | some (a, _) => some (a, some (s.take n))
        | none => none
      else none

/-- Python's `$` anchor also matches just before a trailing newline, so a
stem ending in a newline may alternatively be matched without its final
character. -/
def pyFullMatch (toks : List Tok) (stem : List Char) : Option Groups :=
  match mtch toks stem with
  | some g => some g
  | none =>
    match stem.getLast? with
    | some c => if c = '\n' then mtch toks stem.dropLast else none
    | none => none

/-- Walk the reversed filename looking for the rightmost dot; reject a
dot in first position (hidden files have no suffix in pathlib).  Returns
the reversed stem and the forward extension characters after the dot. -/
def extSplitAux (acc : List Char) : List Char → Option (List Char × List Char)
  | [] => none
  | c :: rest =>
    if c = '.' then
      if rest.isEmpty then none else some (rest, acc)
    else
      extSplitAux (c :: acc) rest

/-- Split a filename into pathlib stem and suffix: the suffix starts at
the last dot, provided that dot is neither the first nor the last
character of the name. -/
def nameSplit (s : String) : String × String :=
  match s.data.reverse with
  | [] => (s, "")
  | last :: _ =>
    if last = '.' then (s, "")
    else
      match extSplitAux [] s.data.reverse with
      | some (stemRev, ext) => (String.mk stemRev.reverse, String.mk ('.' :: ext))
      | none => (s, "")

/-- `Path(filename).stem`. -/
def stemOf (s : String) : String :=
  (nameSplit s).1

/-- `Path(filename).suffix`. -/
def suffixOf (s : String) : String :=
  (nameSplit s).2

/-- `parse_filename` of tag_audio.py: strip the extension, match the
tokenized pattern against the stem, and on success return both captured
groups stripped of surrounding whitespace.  (When the pattern lacks one
of the two placeholders, the source would raise an IndexError reading the
missing group; the model returns `none` in that malformed-pattern case,
which no claim exercises.) -/
def parse_filename (filename pattern : String) : Option (String × String) :=
  let stem := stemOf filename
  match pyFullMatch (tokenize pattern) stem.data with
  | some (some a, some t) => some (String.mk (pyStrip a), String.mk (pyStrip t))
  | _ => none

/-- The number of positions at which `needle` occurs in `hay`. -/
def countOcc (needle hay : List Char) : Nat :=
  (List.range (hay.length + 1)).countP fun p => needle.isPrefixOf (hay.drop p)

/-!
Tagging step of tag_audio.py.

`tag_file` is modelled as a function of the file's name together with the
outcomes of its two external effects: the Discogs lookup (an `Except`
whose error case models the exception caught by the handler around
`find_earliest_release`) and the tag write (the `TAGGERS[ext]` call,
whose error case models the exception caught by the final handler).  The
extracted year/genre/label are handed to that external write, so only the
success flag and message remain observable here.
-/

/-- A single quote character, used by the source's f-string messages. -/
def sQuote : String := String.mk [Char.ofNat 39]

/-- The SUPPORTED_EXTENSIONS set of tag_audio.py. -/
def SUPPORTED_EXTENSIONS : List String :=
  [".mp3", ".flac", ".ogg", ".m4a", ".mp4", ".wma", ".wav"]

/-- The genre combination of `tag_file`: concatenate genres then styles,
keep at most three entries, join with a comma; an empty combined list
yields no genre. -/
def combineGenre (genres styles : List String) : Option String :=
  let all := genres ++ styles
  if all.isEmpty then none else some (String.intercalate ", " (all.take 3))

/-- Python `x or "N/A"` for an optional string: `None` and the empty
string are falsy. -/
def pyOrNA : Option String → String
  | none => "N/A"
  | some s => if s = "" then "N/A" else s

/-- One file given to `tag_file`, together with the outcomes of its two
external effects. -/
structure FileCase where
  name : String
  lookup : Except String (Option DiscogsResult)
  writeOk : Except String Unit
deriving Repr

/-- The message `tag_file` produces when the stem does not match the
pattern. -/
def mismatchMsg (pattern : String) : String :=
  "Filename doesn" ++ sQuote ++ "t match pattern " ++ sQuote ++ pattern ++ sQuote

/-- The substring `process_path` scans messages for to classify a
pattern-mismatch skip. -/
def dmNeedle : String := "doesn" ++ sQuote ++ "t match"

/-- `tag_file` of tag_audio.py: extension check, filename parse, optional
Discogs enrichment (with its broad exception handler), then dry-run or
actual tag write. -/
def tag_file (f : FileCase) (pattern : String)
    (dry_run use_discogs discogs_available : Bool) : Bool × String :=
  let ext := pyLower (suffixOf f.name)
  if !(SUPPORTED_EXTENSIONS.contains ext) then
    (false, "Unsupported format: " ++ ext)
  else
    match parse_filename f.name pattern with
    | none => (false, mismatchMsg pattern)
    | some (artist, title) =>
      if use_discogs && !discogs_available then
        (false, "Discogs lookup not available (check discogs_lookup.py)")
      else
        let yglInfo : Option PyVal × Option String × Option String × String :=
          if use_discogs then
            match f.lookup with
            | Except.ok (some r) =>
              let g := combineGenre r.genres r.styles
              (some r.year, g, r.label,
                " [Discogs: " ++ pyRepr r.year ++ ", " ++ pyOrNA g ++ ", " ++
                  pyOrNA r.label ++ "]")
            | Except.ok none => (none, none, none, " [Discogs: not found]")
            | Except.error e => (none, none, none, " [Discogs error: " ++ e ++ "]")
          else (none, none, none, "")
        let info := yglInfo.2.2.2
        if dry_run then
          (true, "Would tag: artist=" ++ sQuote ++ artist ++ sQuote ++ ", title=" ++
            sQuote ++ title ++ sQuote ++ info)
        else
          match f.writeOk with
          | Except.ok _ =>
            (true, "Tagged: artist=" ++ sQuote ++ artist ++ sQuote ++ ", title=" ++
              sQuote ++ title ++ sQuote ++ info)
          | Except.error e => (false, "Error: " ++ e)

/-- How `process_path` accounts one file. -/
inductive Outcome where
  | success
  | skipped
  | failed
deriving DecidableEq, Repr

/-- The per-file classification of `process_path`: a successful
`tag_file` counts as success; a failed one whose message mentions
`Unsupported` or `doesn't match` counts as skipped; every other failure
counts as failed. -/
def classify_file (f : FileCase) (pattern : String)
    (dry use avail : Bool) : Outcome :=
  let r := tag_file f pattern dry use avail
  if r.1 then Outcome.success
  else if strIn "Unsupported" r.2 || strIn dmNeedle r.2 then Outcome.skipped
  else Outcome.failed

/-- The aggregate counters of `process_path`. -/
structure Stats where
  success : Nat
  failed : Nat
  skipped : Nat
deriving DecidableEq, Repr

/-- Bump the counter selected by one file's outcome. -/
def stepStats (st : Stats) (o : Outcome) : Stats :=
  match o with
  | Outcome.success => { st with success := st.success + 1 }
  | Outcome.skipped => { st with skipped := st.skipped + 1 }
  | Outcome.failed => { st with failed := st.failed + 1 }

/-- `process_path` of tag_audio.py over its selected file list: tag each
file in turn and accumulate the three counters. -/
def process_path (files : List FileCase) (pattern : String)
    (dry use avail : Bool) : Stats :=
  files.foldl (fun st f => stepStats st (classify_file f pattern dry use avail)) ⟨0, 0, 0⟩

/-- The process exit code computed at the end of `main`:
`sys.exit(0 if stats["failed"] == 0 else 1)`. -/
def exitCode (st : Stats) : Nat :=
  if st.failed = 0 then 0 else 1

/-- A candidate rejected by tracklist verification: its id is truthy (so
the verification branch is taken) and the detail fetch either raises
(modelled by `none`) or yields a payload whose tracklist does not match
the title. -/
def RejectedCand (fetch : PyVal → Option ReleaseDetails) (title : String)
    (c : SearchRow) : Prop :=
  pyTruthy c.id = true ∧ ∀ d, fetch c.id = some d → track_on_release d title = false

/-- A search row whose year field is missing, not an integer, or at most
1900 (the wording of the filtering claim). -/
def BadYear (r : SearchRow) : Prop :=
  r.year = PyVal.vNone ∨ (∀ n : Int, r.year ≠ PyVal.vInt n) ∨
    ∃ n : Int, r.year = PyVal.vInt n ∧ n ≤ 1900

/-!
Lemmas and claim theorems.
-/

theorem isSubChars_iff (n h : List Char) : isSubChars n h = true ↔ n <:+: h := by
  induction h with
  | nil => simp [isSubChars, List.isEmpty_iff, List.infix_nil]
  | cons c t ih =>
    rw [isSubChars, Bool.or_eq_true, List.isPrefixOf_iff_prefix, ih,
      List.infix_cons_iff]

theorem loopCands_none (artist title : String)
    (fetch : PyVal → Option ReleaseDetails) (cs : List SearchRow)
    (h : ∀ c ∈ cs, RejectedCand fetch title c) :
    loopCands artist title true fetch cs = none := by
  induction cs with
  | nil => rfl
  | cons c rest ih =>
    obtain ⟨hid, hd⟩ := h c (List.mem_cons_self c rest)
    have hrest := ih fun x hx => h x (List.mem_cons_of_mem _ hx)
    rw [loopCands, hid]
    cases hfc : fetch c.id with
    | none => simpa using hrest
    | some d => simp [hd d hfc, hrest]

theorem loopCands_append_rejected (artist title : String)
    (fetch : PyVal → Option ReleaseDetails) (pre l : List SearchRow)
    (h : ∀ x ∈ pre, RejectedCand fetch title x) :
    loopCands artist title true fetch (pre ++ l) =
      loopCands artist title true fetch l := by
  induction pre with
  | nil => rfl
  | cons c rest ih =>
    obtain ⟨hid, hd⟩ := h c (List.mem_cons_self c rest)
    have hrest := ih fun x hx => h x (List.mem_cons_of_mem _ hx)
    rw [List.cons_append, loopCands, hid]
    cases hfc : fetch c.id with
    | none => simpa using hrest
    | some d => simp [hd d hfc, hrest]

theorem results_ne_nil_of_sortCands {results : List SearchRow}
    {l : List SearchRow} (h : sortCands (results.filter keepCandidate) = l)
    (hl : l ≠ []) : results.isEmpty = false := by
  cases results with
  | nil => simp [sortCands] at h; exact absurd h hl
  | cons a b => rfl

/-- C1: when verification is enabled and tracklist verification rejects
every candidate in the filtered, year-sorted candidate list,
`find_earliest_release` falls back to the result built, unverified, from
the first element of that list (its genre/style/label/format/country
taken from the search row), rather than returning none. -/
theorem C1_fallback_returns_unverified_first
    (artist title : String) (fetch : PyVal → Option ReleaseDetails)
    (results : List SearchRow) (c : SearchRow) (rest : List SearchRow)
    (hsort : sortCands (results.filter keepCandidate) = c :: rest)
    (hrej : ∀ x ∈ sortCands (results.filter keepCandidate),
      RejectedCand fetch title x) :
    find_earliest_release artist title true fetch results =
      some (buildUnverified artist title c) := by
  have hne := results_ne_nil_of_sortCands hsort (by simp)
  rw [hsort] at hrej
  simp only [find_earliest_release, hne, Bool.false_eq_true, if_false, hsort,
    loopCands_none artist title fetch _ hrej]

/-- C1 witness: a single candidate with a truthy id whose detail fetch
always raises is rejected, and the fallback returns it unverified. -/
theorem C1_witness :
    find_earliest_release "Pink Floyd" "Dogs" true (fun _ => none)
        [⟨PyVal.vInt 7, PyVal.vInt 1999, ["Rock"], ["Prog"], ["Harvest"], ["LP"], some "UK"⟩] =
      some (buildUnverified "Pink Floyd" "Dogs"
        ⟨PyVal.vInt 7, PyVal.vInt 1999, ["Rock"], ["Prog"], ["Harvest"], ["LP"], some "UK"⟩) := by
  apply C1_fallback_returns_unverified_first "Pink Floyd" "Dogs" (fun _ => none) _ _ []
  · simp [sortCands, keepCandidate, pyTruthy, pyIsInt]
  · intro x hx
    have hx' : x = ⟨PyVal.vInt 7, PyVal.vInt 1999, ["Rock"], ["Prog"], ["Harvest"], ["LP"], some "UK"⟩ := by
      simpa [sortCands, keepCandidate, pyTruthy, pyIsInt] using hx
    subst hx'
    exact ⟨by decide, fun d hd => by cases hd⟩

/-- C4: a search row whose year is missing, not an integer, or at most
1900 never appears in the filtered, year-sorted candidate list. -/
theorem C4_bad_year_not_in_candidates
    (results : List SearchRow) (r : SearchRow) (h : BadYear r) :
    r ∉ sortCands (results.filter keepCandidate) := by
  intro hmem
  rw [sortCands, List.mem_mergeSort] at hmem
  have hkeep := List.of_mem_filter hmem
  rcases h with h | h | ⟨n, hn, hle⟩
  · rw [keepCandidate, h] at hkeep
    simp [pyTruthy] at hkeep
  · cases hy : r.year with
    | vNone =>
      rw [keepCandidate, hy] at hkeep
      simp [pyTruthy] at hkeep
    | vInt n => exact absurd hy (h n)
    | vStr s =>
      rw [keepCandidate, hy] at hkeep
      simp [pyTruthy, pyIsInt] at hkeep
  · rw [keepCandidate, hn] at hkeep
    simp [pyTruthy, pyIsInt] at hkeep
    omega

/-- C4 witness: a row with a missing year is not in the candidate list
built from a response containing only that row. -/
theorem C4_witness :
    (⟨PyVal.vNone, PyVal.vNone, [], [], [], [], none⟩ : SearchRow) ∉
      sortCands (List.filter keepCandidate
        [⟨PyVal.vNone, PyVal.vNone, [], [], [], [], none⟩]) :=
  C4_bad_year_not_in_candidates _ _ (Or.inl rfl)

/-- C5: the sorted candidate list is non-decreasing by year, and
candidates with equal years keep their original relative order (the sort
is stable). -/
theorem C5_sort_nondecreasing_and_stable (cs : List SearchRow) :
    List.Pairwise (fun a b => yearKey a ≤ yearKey b) (sortCands cs) ∧
    ∀ y : Int,
      (sortCands cs).filter (fun r => decide (yearKey r = y)) =
        cs.filter (fun r => decide (yearKey r = y)) := by
  have htrans : ∀ a b c : SearchRow, decide (yearKey a ≤ yearKey b) = true →
      decide (yearKey b ≤ yearKey c) = true →
      decide (yearKey a ≤ yearKey c) = true := by
    intro a b c h1 h2
    simp only [decide_eq_true_eq] at h1 h2 ⊢
    omega
  have htotal : ∀ a b : SearchRow,
      (decide (yearKey a ≤ yearKey b) || decide (yearKey b ≤ yearKey a)) = true := by
    intro a b
    simp only [Bool.or_eq_true, decide_eq_true_eq]
    omega
  constructor
  · have h := List.sorted_mergeSort htrans htotal cs
    exact h.imp fun hab => by simpa using hab
  · intro y
    have hall : ∀ a ∈ cs.filter (fun r => decide (yearKey r = y)),
        decide (yearKey a = y) = true := by
      intro a ha
      exact @List.of_mem_filter _ (fun r => decide (yearKey r = y)) a cs ha
    have hpair : List.Pairwise
        (fun a b => decide (yearKey a ≤ yearKey b) = true)
        (cs.filter (fun r => decide (yearKey r = y))) := by
      apply List.pairwise_of_forall_mem_list
      intro a ha b hb
      have h1 := List.of_mem_filter ha
      have h2 := List.of_mem_filter hb
      simp only [decide_eq_true_eq] at h1 h2 ⊢
      omega
    have hsub : (cs.filter (fun r => decide (yearKey r = y))).Sublist (sortCands cs) :=
      List.sublist_mergeSort htrans htotal hpair (List.filter_sublist cs)
    have hsub2 : (cs.filter (fun r => decide (yearKey r = y))).Sublist
        ((sortCands cs).filter (fun r => decide (yearKey r = y))) := by
      have h := List.Sublist.filter (fun r => decide (yearKey r = y)) hsub
      rwa [List.filter_eq_self.mpr hall] at h
    have hlen : (cs.filter (fun r => decide (yearKey r = y))).length =
        ((sortCands cs).filter (fun r => decide (yearKey r = y))).length := by
      rw [← List.countP_eq_length_filter, ← List.countP_eq_length_filter]
      exact (((List.mergeSort_perm cs _)).countP_eq _).symm
    exact (hsub2.eq_of_length hlen).symm

/-- C6: when verification is on and a candidate passes tracklist
verification (every earlier candidate in the sorted list having been
rejected), the returned result takes genres, styles and label from the
release-detail payload, and year, format and country from the original
search candidate row. -/
theorem C6_verified_result_field_sources
    (artist title : String) (fetch : PyVal → Option ReleaseDetails)
    (results pre : List SearchRow) (c : SearchRow) (rest : List SearchRow)
    (d : ReleaseDetails)
    (hsort : sortCands (results.filter keepCandidate) = pre ++ c :: rest)
    (hpre : ∀ x ∈ pre, RejectedCand fetch title x)
    (hid : pyTruthy c.id = true)
    (hd : fetch c.id = some d)
    (ht : track_on_release d title = true) :
    ∃ res : DiscogsResult,
      find_earliest_release artist title true fetch results = some res ∧
      res.genres = d.genres ∧ res.styles = d.styles ∧
      res.label = headOptStr d.labels ∧
      res.year = c.year ∧ res.format = headStr c.format ∧
      res.country = c.country := by
  refine ⟨buildVerified artist title c d, ?_, rfl, rfl, rfl, rfl, rfl, rfl⟩
  have hne := results_ne_nil_of_sortCands hsort (by simp)
  simp only [find_earliest_release, hne, Bool.false_eq_true, if_false, hsort,
    loopCands_append_rejected artist title fetch pre _ hpre]
  rw [loopCands, hid]
  simp [hd, ht]

/-- C6 witness: with one candidate whose fetched tracklist contains the
title, the returned result mixes detail-payload and search-row fields. -/
theorem C6_witness :
    ∃ res : DiscogsResult,
      find_earliest_release "Pink Floyd" "Dogs" true
          (fun _ => some ⟨["Rock"], ["Prog"], [some "Harvest"], ["dogs"]⟩)
          [⟨PyVal.vInt 5, PyVal.vInt 1973, [], [], [], ["LP"], some "UK"⟩] = some res ∧
      res.genres = ["Rock"] ∧ res.styles = ["Prog"] ∧
      res.label = headOptStr [some "Harvest"] ∧
      res.year = PyVal.vInt 1973 ∧
      res.format = headStr ["LP"] ∧
      res.country = some "UK" := by
  exact C6_verified_result_field_sources "Pink Floyd" "Dogs"
    (fun _ => some ⟨["Rock"], ["Prog"], [some "Harvest"], ["dogs"]⟩)
    [⟨PyVal.vInt 5, PyVal.vInt 1973, [], [], [], ["LP"], some "UK"⟩] []
    ⟨PyVal.vInt 5, PyVal.vInt 1973, [], [], [], ["LP"], some "UK"⟩ []
    ⟨["Rock"], ["Prog"], [some "Harvest"], ["dogs"]⟩
    (by simp [sortCands, keepCandidate, pyTruthy, pyIsInt])
    (by intro x hx; cases hx) (by decide) rfl (by decide)

/-- C10: when verification is requested but a candidate reached by the
loop has a falsy id, the verification branch is bypassed and that
candidate is returned immediately, built only from its search-row
genre/style/label/format/country fields. -/
theorem C10_falsy_id_bypasses_verification
    (artist title : String) (fetch : PyVal → Option ReleaseDetails)
    (results pre : List SearchRow) (c : SearchRow) (rest : List SearchRow)
    (hsort : sortCands (results.filter keepCandidate) = pre ++ c :: rest)
    (hpre : ∀ x ∈ pre, RejectedCand fetch title x)
    (hid : pyTruthy c.id = false) :
    find_earliest_release artist title true fetch results =
      some (buildUnverified artist title c) := by
  have hne := results_ne_nil_of_sortCands hsort (by simp)
  simp only [find_earliest_release, hne, Bool.false_eq_true, if_false, hsort,
    loopCands_append_rejected artist title fetch pre _ hpre]
  rw [loopCands, hid]
  simp

/-- C10 witness: a single candidate with a missing id is returned
unverified even though verification is on, for any fetch behaviour. -/
theorem C10_witness :
    find_earliest_release "Pink Floyd" "Dogs" true
        (fun _ => some ⟨[], [], [], ["not the track"]⟩)
        [⟨PyVal.vNone, PyVal.vInt 2000, ["Pop"], [], [], [], none⟩] =
      some (buildUnverified "Pink Floyd" "Dogs"
        ⟨PyVal.vNone, PyVal.vInt 2000, ["Pop"], [], [], [], none⟩) := by
  apply C10_falsy_id_bypasses_verification "Pink Floyd" "Dogs" _ _ [] _ []
  · simp [sortCands, keepCandidate, pyTruthy, pyIsInt]
  · intro x hx
    cases hx
  · decide

/-- C7: `track_on_release` returns true exactly when some track title of
the payload, compared case-insensitively with the supplied title,
contains it as a substring or is contained in it. -/
theorem C7_track_match_iff (d : ReleaseDetails) (title : String) :
    track_on_release d title = true ↔
      ∃ t ∈ d.tracklist,
        ((pyLower title).data <:+: (pyLower t).data ∨
          (pyLower t).data <:+: (pyLower title).data) := by
  rw [track_on_release, List.any_eq_true]
  refine exists_congr fun t => and_congr_right fun _ => ?_
  rw [Bool.or_eq_true, strIn, strIn, isSubChars_iff, isSubChars_iff]

/-- C8: the genre tag is the concatenation of genres then styles, cut to
at most three entries and joined with a comma-space; an empty combined
list yields no genre tag; on the Rock example the result is exactly
three entries. -/
theorem C8_genre_join_law :
    combineGenre ["Rock"] ["Prog Rock", "Psychedelic", "Art Rock", "Space Rock"] =
      some "Rock, Prog Rock, Psychedelic" ∧
    (∀ genres styles : List String,
      genres ++ styles = [] → combineGenre genres styles = none) ∧
    (∀ genres styles : List String,
      genres ++ styles ≠ [] →
        combineGenre genres styles =
          some (String.intercalate ", " ((genres ++ styles).take 3))) := by
  refine ⟨by decide, ?_, ?_⟩
  · intro g s h
    simp [combineGenre, h]
  · intro g s h
    simp [combineGenre, List.isEmpty_iff, h]

/-- C8 witness: the empty-combination law applied at the empty lists. -/
theorem C8_witness : combineGenre [] [] = none :=
  C8_genre_join_law.2.1 [] [] rfl

theorem process_path_counts (files : List FileCase) (pattern : String)
    (dry use avail : Bool) (st : Stats) :
    files.foldl (fun s f => stepStats s (classify_file f pattern dry use avail)) st =
      ⟨st.success + files.countP
          (fun f => decide (classify_file f pattern dry use avail = Outcome.success)),
        st.failed + files.countP
          (fun f => decide (classify_file f pattern dry use avail = Outcome.failed)),
        st.skipped + files.countP
          (fun f => decide (classify_file f pattern dry use avail = Outcome.skipped))⟩ := by
  induction files generalizing st with
  | nil => cases st; simp [List.countP_nil]
  | cons f fs ih =>
    rw [List.foldl_cons, ih]
    rcases hcf : classify_file f pattern dry use avail with _ | _ | _ <;>
      simp [stepStats, hcf, List.countP_cons, Stats.mk.injEq] <;> omega

theorem process_path_length (files : List FileCase) (pattern : String)
    (dry use avail : Bool) :
    (process_path files pattern dry use avail).success +
        (process_path files pattern dry use avail).failed +
        (process_path files pattern dry use avail).skipped = files.length := by
  rw [process_path, process_path_counts]
  simp only [Nat.zero_add]
  induction files with
  | nil => simp [List.countP_nil]
  | cons f fs ih =>
    rcases hcf : classify_file f pattern dry use avail with _ | _ | _ <;>
      simp [hcf, List.countP_cons] <;> omega

theorem strIn_of_prefix {needle hay : String} (h : needle.data <+: hay.data) :
    strIn needle hay = true :=
  (isSubChars_iff needle.data hay.data).mpr h.isInfix

theorem strIn_append_right (needle hay tail : String)
    (h : strIn needle hay = true) : strIn needle (hay ++ tail) = true := by
  rw [strIn, isSubChars_iff] at h ⊢
  rw [String.data_append]
  exact h.trans (List.prefix_append hay.data tail.data).isInfix

theorem unsupported_in_msg (ext : String) :
    strIn "Unsupported" ("Unsupported format: " ++ ext) = true := by
  apply strIn_append_right
  exact strIn_of_prefix (by decide)

theorem dm_in_mismatch (pattern : String) :
    strIn dmNeedle (mismatchMsg pattern) = true := by
  have hchunk : "Filename doesn" ++ sQuote ++ "t match pattern " =
      "Filename " ++ dmNeedle ++ " pattern " := by decide
  rw [mismatchMsg, hchunk]
  apply strIn_append_right
  apply strIn_append_right
  decide

/-- C9: an unsupported extension or a filename/pattern mismatch is
classified as skipped (never as failed), and the process exit code is 0
exactly when the failed counter is 0, so such files never force a
non-zero exit. -/
theorem C9_input_errors_skipped (files : List FileCase) (pattern : String)
    (dry use avail : Bool) :
    (∀ f ∈ files,
        SUPPORTED_EXTENSIONS.contains (pyLower (suffixOf f.name)) = false ∨
          parse_filename f.name pattern = none →
        classify_file f pattern dry use avail = Outcome.skipped) ∧
    (process_path files pattern dry use avail).failed =
      files.countP
        (fun f => decide (classify_file f pattern dry use avail = Outcome.failed)) ∧
    (exitCode (process_path files pattern dry use avail) = 0 ↔
      (process_path files pattern dry use avail).failed = 0) := by
  refine ⟨?_, ?_, ?_⟩
  · intro f hf hbad
    have hskip : ∀ msg : String,
        tag_file f pattern dry use avail = (false, msg) →
        (strIn "Unsupported" msg || strIn dmNeedle msg) = true →
        classify_file f pattern dry use avail = Outcome.skipped := by
      intro msg htag hmsg
      simp [classify_file, htag, hmsg]
    rcases hbad with hc | hp
    · have hmem : pyLower (suffixOf f.name) ∉ SUPPORTED_EXTENSIONS := by
        simpa using hc
      exact hskip ("Unsupported format: " ++ pyLower (suffixOf f.name))
        (by simp [tag_file, hmem]) (by simp [unsupported_in_msg])
    · by_cases hmem : pyLower (suffixOf f.name) ∈ SUPPORTED_EXTENSIONS
      · exact hskip (mismatchMsg pattern)
          (by simp [tag_file, hmem, hp]) (by simp [dm_in_mismatch])
      · exact hskip ("Unsupported format: " ++ pyLower (suffixOf f.name))
          (by simp [tag_file, hmem]) (by simp [unsupported_in_msg])
  · rw [process_path, process_path_counts]
    simp
  · by_cases h : (process_path files pattern dry use avail).failed = 0 <;>
      simp [exitCode, h]

/-- C9 witness: a file with an unsupported extension is classified as
skipped. -/
theorem C9_witness :
    classify_file ⟨"song.txt", Except.ok none, Except.ok ()⟩ "{artist} - {title}"
        false false true = Outcome.skipped :=
  (C9_input_errors_skipped [⟨"song.txt", Except.ok none, Except.ok ()⟩]
      "{artist} - {title}" false false true).1
    ⟨"song.txt", Except.ok none, Except.ok ()⟩ (List.mem_singleton_self _)
    (Or.inl (by decide))

/-- C2 is false as stated at this input: the catalog search fails
(`lookup` carries the propagated exception), yet `tag_file` returns
success, because it catches the exception, notes it in the message, and
still tags the file; `process_path` counts the file as a success, not a
per-file failure. -/
theorem C2_counterexample :
    (tag_file ⟨"a - b.mp3", Except.error "boom", Except.ok ()⟩
        "{artist} - {title}" false true true).1 = true ∧
    classify_file ⟨"a - b.mp3", Except.error "boom", Except.ok ()⟩
        "{artist} - {title}" false true true ≠ Outcome.failed := by
  constructor
  · decide
  · decide

/-- C2 (amended): a failing required search propagates out of
`find_earliest_release` unchanged as a hard failure; the calling tag step
catches it, appends a Discogs-error note to the message, and still tags
the file from its filename fields (a per-file success when the tag write
succeeds); processing of the remaining files continues regardless, every
file being accounted in exactly one counter. -/
theorem C2_search_error_noted_and_continue
    (f : FileCase) (pattern artist title e : String)
    (hsupp : SUPPORTED_EXTENSIONS.contains (pyLower (suffixOf f.name)) = true)
    (hparse : parse_filename f.name pattern = some (artist, title))
    (hlook : f.lookup = Except.error e)
    (hw : f.writeOk = Except.ok ()) :
    (∀ a t : String, ∀ verify : Bool, ∀ fetch : PyVal → Option ReleaseDetails,
        find_earliest_release_run a t verify fetch (Except.error e) =
          Except.error e) ∧
    tag_file f pattern false true true =
      (true, "Tagged: artist=" ++ sQuote ++ artist ++ sQuote ++ ", title=" ++
        sQuote ++ title ++ sQuote ++ (" [Discogs error: " ++ e ++ "]")) ∧
    ∀ files : List FileCase, ∀ dry use avail : Bool,
      (process_path files pattern dry use avail).success +
          (process_path files pattern dry use avail).failed +
          (process_path files pattern dry use avail).skipped = files.length := by
  refine ⟨fun a t verify fetch => rfl, ?_, fun files dry use avail =>
    process_path_length files pattern dry use avail⟩
  have hmem : pyLower (suffixOf f.name) ∈ SUPPORTED_EXTENSIONS := by
    simpa using hsupp
  simp [tag_file, hmem, hparse, hlook, hw]

/-- C2 witness: the amended behaviour at a concrete file whose lookup
errored and whose tag write succeeds. -/
theorem C2_witness :
    tag_file ⟨"a - b.mp3", Except.error "boom", Except.ok ()⟩
        "{artist} - {title}" false true true =
      (true, "Tagged: artist=" ++ sQuote ++ "a" ++ sQuote ++ ", title=" ++
        sQuote ++ "b" ++ sQuote ++ (" [Discogs error: " ++ "boom" ++ "]")) :=
  (C2_search_error_noted_and_continue
      ⟨"a - b.mp3", Except.error "boom", Except.ok ()⟩
      "{artist} - {title}" "a" "b" "boom" (by decide) (by decide) rfl rfl).2.1

theorem two_le_countP {α : Type} (l : List α) (P : α → Bool) (a b : α)
    (ha : a ∈ l) (hb : b ∈ l) (hab : a ≠ b)
    (hPa : P a = true) (hPb : P b = true) : 2 ≤ l.countP P := by
  rw [List.countP_eq_length_filter]
  have ha' : a ∈ l.filter P := List.mem_filter.mpr ⟨ha, hPa⟩
  have hb' : b ∈ l.filter P := List.mem_filter.mpr ⟨hb, hPb⟩
  obtain ⟨s, t, hst⟩ := List.append_of_mem ha'
  rw [hst] at hb'
  rw [hst, List.length_append, List.length_cons]
  rcases List.mem_append.mp hb' with h | h
  · have := List.length_pos.mpr (List.ne_nil_of_mem h)
    omega
  · rcases List.mem_cons.mp h with h | h
    · exact absurd h.symm hab
    · have := List.length_pos.mpr (List.ne_nil_of_mem h)
      omega

theorem countOcc_unique (needle hay : List Char) (hn : needle ≠ []) (p₀ : Nat)
    (hocc : needle <+: hay.drop p₀) (hcount : countOcc needle hay = 1) :
    ∀ p, p ≠ p₀ → ¬ needle <+: hay.drop p := by
  intro p hne hpre
  have hple : p ≤ hay.length := by
    by_contra h
    push_neg at h
    rw [List.drop_eq_nil_of_le (Nat.le_of_lt h)] at hpre
    exact hn (List.prefix_nil.mp hpre)
  have hp0le : p₀ ≤ hay.length := by
    by_contra h
    push_neg at h
    rw [List.drop_eq_nil_of_le (Nat.le_of_lt h)] at hocc
    exact hn (List.prefix_nil.mp hocc)
  have h2 : 2 ≤ countOcc needle hay := by
    rw [countOcc]
    refine two_le_countP _ _ p p₀ ?_ ?_ hne ?_ ?_
    · exact List.mem_range.mpr (by omega)
    · exact List.mem_range.mpr (by omega)
    · exact List.isPrefixOf_iff_prefix.mpr hpre
    · exact List.isPrefixOf_iff_prefix.mpr hocc
  omega

set_option maxHeartbeats 1000000 in
theorem tokenizeAux_step (c : Char) (rest acc : List Char)
    (h1 : ¬ artistPh <+: (c :: rest)) (h2 : ¬ titlePh <+: (c :: rest)) :
    tokenizeAux acc (c :: rest) = tokenizeAux (c :: acc) rest := by
  rw [tokenizeAux.eq_def]
  split
  · rename_i rest' heq
    exact absurd (heq ▸ ⟨rest', rfl⟩ : artistPh <+: (c :: rest)) h1
  · rename_i rest' heq
    exact absurd (heq ▸ ⟨rest', rfl⟩ : titlePh <+: (c :: rest)) h2
  · rename_i c' rest' heq
    cases heq
    rfl
  · rename_i heq
    cases heq

theorem tokenizeAux_scan (s : List Char) (acc : List Char)
    (h : ∀ q, q < s.length →
      ¬ artistPh <+: ((s ++ titlePh).drop q) ∧
        ¬ titlePh <+: ((s ++ titlePh).drop q)) :
    tokenizeAux acc (s ++ titlePh) = pushLit (s.reverse ++ acc) [Tok.capT] := by
  induction s generalizing acc with
  | nil =>
    simp only [List.nil_append, List.reverse_nil]
    rfl
  | cons c cs ih =>
    obtain ⟨h1, h2⟩ := h 0 (by simp)
    rw [List.cons_append] at h1 h2 ⊢
    rw [List.drop_zero] at h1 h2
    rw [tokenizeAux_step c (cs ++ titlePh) acc h1 h2]
    rw [ih (c :: acc) fun q hq => by
      have hq' := h (q + 1) (by simpa using Nat.succ_lt_succ hq)
      rwa [List.cons_append, List.drop_succ_cons] at hq']
    simp

theorem tokenize_pattern (sep : String) (hS : sep.data ≠ [])
    (hocc1 : countOcc artistPh ("{artist}" ++ sep ++ "{title}").data = 1)
    (hocc2 : countOcc titlePh ("{artist}" ++ sep ++ "{title}").data = 1) :
    tokenize ("{artist}" ++ sep ++ "{title}") =
      [Tok.capA, Tok.lit sep.data, Tok.capT] := by
  have hPdata : ("{artist}" ++ sep ++ "{title}").data =
      artistPh ++ (sep.data ++ titlePh) := by
    rw [String.data_append, String.data_append]
    rw [show "{artist}".data = artistPh from by decide,
      show "{title}".data = titlePh from by decide]
    rw [List.append_assoc]
  rw [hPdata] at hocc1 hocc2
  have hA0 : artistPh <+: (artistPh ++ (sep.data ++ titlePh)).drop 0 := by
    rw [List.drop_zero]
    exact List.prefix_append _ _
  have hTocc : titlePh <+:
      (artistPh ++ (sep.data ++ titlePh)).drop (artistPh.length + sep.data.length) := by
    rw [List.drop_append]
    rw [show sep.data.length = sep.data.length + 0 from rfl, List.drop_append]
    simp
  have hAuniq := countOcc_unique artistPh _ (by decide) 0 hA0 hocc1
  have hTuniq := countOcc_unique titlePh _ (by decide)
    (artistPh.length + sep.data.length) hTocc hocc2
  rw [tokenize, hPdata]
  rw [show tokenizeAux [] (artistPh ++ (sep.data ++ titlePh)) =
      pushLit [] (Tok.capA :: tokenizeAux [] (sep.data ++ titlePh)) from rfl]
  rw [tokenizeAux_scan sep.data [] fun q hq => by
    constructor
    · have := hAuniq (artistPh.length + q) (by simp [artistPh])
      rwa [List.drop_append] at this
    · have := hTuniq (artistPh.length + q) (by omega)
      rwa [List.drop_append] at this]
  have hne : ¬ (sep.data.reverse ++ []).isEmpty = true := by
    simp [hS]
  simp [pushLit, hne, hS]

theorem firstSome_append {α : Type} (l₁ l₂ : List Nat) (f : Nat → Option α) :
    firstSome (l₁ ++ l₂) f =
      match firstSome l₁ f with
      | some v => some v
      | none => firstSome l₂ f := by
  induction l₁ with
  | nil => rfl
  | cons n ns ih =>
    rw [List.cons_append, firstSome, firstSome]
    cases f n with
    | none => exact ih
    | some v => rfl

theorem firstSome_none {α : Type} (ns : List Nat) (f : Nat → Option α)
    (h : ∀ k ∈ ns, f k = none) : firstSome ns f = none := by
  induction ns with
  | nil => rfl
  | cons n ms ih =>
    rw [firstSome, h n (List.mem_cons_self n ms)]
    exact ih fun k hk => h k (List.mem_cons_of_mem _ hk)

theorem mem_upLens (k n : Nat) : k ∈ upLens n ↔ 1 ≤ k ∧ k ≤ n := by
  induction n with
  | zero =>
    simp only [upLens, List.not_mem_nil, false_iff]
    omega
  | succ m ih =>
    rw [upLens, List.mem_append, ih]
    simp only [List.mem_singleton]
    omega

theorem upLens_decomp (a b : Nat) (h : a ≤ b) :
    ∃ seg, upLens b = upLens a ++ seg ∧ ∀ k ∈ seg, a < k ∧ k ≤ b := by
  induction b with
  | zero =>
    have : a = 0 := Nat.le_zero.mp h
    subst this
    exact ⟨[], by simp, by simp⟩
  | succ n ih =>
    rcases Nat.eq_or_lt_of_le h with heq | hlt
    · subst heq
      exact ⟨[], by simp, by simp⟩
    · obtain ⟨seg, h1, h2⟩ := ih (Nat.lt_succ_iff.mp hlt)
      refine ⟨seg ++ [n + 1], ?_, ?_⟩
      · rw [upLens, h1, List.append_assoc]
      · intro k hk
        rcases List.mem_append.mp hk with hk | hk
        · exact ⟨(h2 k hk).1, Nat.le_succ_of_le (h2 k hk).2⟩
        · simp only [List.mem_singleton] at hk
          omega

theorem downLens_succ (n : Nat) : downLens (n + 1) = (n + 1) :: downLens n := by
  rw [downLens, upLens, List.reverse_append]
  rfl

theorem stripPrefixCI_self_append (l t : List Char) :
    stripPrefixCI l (l ++ t) = some t := by
  induction l with
  | nil => rfl
  | cons c cs ih => rw [List.cons_append, stripPrefixCI, if_pos rfl, ih]

theorem mtch_capT_full (r : List Char) (hr : r ≠ []) (hnl : noNl r = true) :
    mtch [Tok.capT] r = some (none, some r) := by
  obtain ⟨m, hm⟩ : ∃ m, r.length = m + 1 := by
    cases hr' : r with
    | nil => exact absurd hr' hr
    | cons x xs => exact ⟨xs.length, by simp⟩
  rw [mtch, hm, downLens_succ, firstSome]
  have htake : r.take (m + 1) = r := by
    rw [← hm]
    exact List.take_length r
  have hdrop : r.drop (m + 1) = [] := by
    rw [← hm]
    exact List.drop_length r
  simp only [htake, hdrop, hnl, if_true, mtch, List.isEmpty_nil]

theorem mtch_three (A L T : List Char) (hA : A ≠ []) (hT : T ≠ [])
    (hAnl : noNl A = true) (hTnl : noNl T = true)
    (hbound : ∀ p, 1 ≤ p → p < A.length →
      stripPrefixCI L ((A ++ L ++ T).drop p) = none) :
    mtch [Tok.capA, Tok.lit L, Tok.capT] (A ++ L ++ T) = some (some A, some T) := by
  have hassoc : A ++ L ++ T = A ++ (L ++ T) := List.append_assoc A L T
  have hbound' : ∀ p, 1 ≤ p → p < A.length →
      stripPrefixCI L ((A ++ (L ++ T)).drop p) = none := by
    intro p h1 h2
    rw [← hassoc]
    exact hbound p h1 h2
  rw [hassoc, mtch]
  have hAlen : 1 ≤ A.length := by
    cases hA' : A with
    | nil => exact absurd hA' hA
    | cons x xs => simp
  have hlen : A.length ≤ (A ++ (L ++ T)).length := by
    rw [List.length_append]
    omega
  obtain ⟨m, hm⟩ : ∃ m, A.length = m + 1 := ⟨A.length - 1, by omega⟩
  obtain ⟨seg, hdecomp, hseg⟩ := upLens_decomp A.length (A ++ (L ++ T)).length hlen
  rw [hm, upLens] at hdecomp
  rw [hdecomp, List.append_assoc]
  rw [firstSome_append]
  have hsmall : ∀ k ∈ upLens m, (fun n =>
      if noNl ((A ++ (L ++ T)).take n) then
        match mtch [Tok.lit L, Tok.capT] ((A ++ (L ++ T)).drop n) with
        | some (_, t) => some (some ((A ++ (L ++ T)).take n), t)
        | none => none
      else none) k = none := by
    intro k hk
    obtain ⟨hk1, hk2⟩ := (mem_upLens k m).mp hk
    have hnone := hbound' k hk1 (by omega)
    simp only [mtch, hnone]
    split <;> rfl
  rw [firstSome_none _ _ hsmall]
  rw [List.singleton_append, firstSome]
  have htakeA : (A ++ (L ++ T)).take (m + 1) = A := by
    rw [← hm]
    exact List.take_left A (L ++ T)
  have hdropA : (A ++ (L ++ T)).drop (m + 1) = L ++ T := by
    rw [← hm]
    exact List.drop_left A (L ++ T)
  simp only [htakeA, hdropA, hAnl, if_true]
  rw [show mtch [Tok.lit L, Tok.capT] (L ++ T) = mtch [Tok.capT] T from by
    rw [mtch, stripPrefixCI_self_append]]
  rw [mtch_capT_full T hT hTnl]

theorem extSplitAux_no_dot (w : List Char) (hw : '.' ∉ w) (r : List Char)
    (hr : r ≠ []) (acc : List Char) :
    extSplitAux acc (w ++ '.' :: r) = some (r, w.reverse ++ acc) := by
  induction w generalizing acc with
  | nil =>
    rw [List.nil_append, extSplitAux, if_pos rfl,
      if_neg (by simp [hr] : ¬ r.isEmpty = true)]
    simp
  | cons c cs ih =>
    have hc : ¬ (c = '.') := by
      intro heq
      subst heq
      exact hw (List.mem_cons_self _ _)
    rw [List.cons_append, extSplitAux, if_neg hc,
      ih (fun h => hw (List.mem_cons_of_mem _ h))]
    simp

theorem stemOf_data (s : String) (A e : List Char) (hs : s.data = A ++ '.' :: e)
    (hA : A ≠ []) (he : e ≠ []) (hd : '.' ∉ e) : (stemOf s).data = A := by
  obtain ⟨h, t, hrev⟩ : ∃ h t, e.reverse = h :: t := by
    cases he' : e.reverse with
    | nil => exact absurd (by simpa using he') he
    | cons x xs => exact ⟨x, xs, rfl⟩
  have hh : ¬ (h = '.') := by
    intro heq
    apply hd
    rw [← List.mem_reverse, hrev, heq]
    exact List.mem_cons_self _ _
  have hsrev : s.data.reverse = h :: (t ++ '.' :: A.reverse) := by
    rw [hs, List.reverse_append, List.reverse_cons, hrev]
    simp [List.append_assoc]
  rw [stemOf, nameSplit, hsrev]
  dsimp only
  rw [if_neg hh]
  rw [show h :: (t ++ '.' :: A.reverse) = (h :: t) ++ '.' :: A.reverse from by simp]
  rw [extSplitAux_no_dot (h :: t)
    (by rw [← hrev, List.mem_reverse]; exact hd)
    A.reverse (by simpa using hA) []]
  simp

/-- C3 is false as stated at this concrete input: the pattern
`{artist}aa{title}` contains exactly one occurrence of each placeholder
separated by the non-empty literal `aa`; artist `xa` and title `t` are
non-empty and neither contains that separator; yet parsing the filename
`xaaat.mp3` yields `(x, at)` — the lazy artist capture stops at the
occurrence of the separator that straddles the artist/separator boundary
— instead of the claimed `(xa, t)`. -/
theorem C3_counterexample :
    countOcc artistPh ("{artist}" ++ "aa" ++ "{title}").data = 1 ∧
    countOcc titlePh ("{artist}" ++ "aa" ++ "{title}").data = 1 ∧
    ("aa" : String) ≠ "" ∧ ("xa" : String) ≠ "" ∧ ("t" : String) ≠ "" ∧
    isSubChars "aa".data "xa".data = false ∧
    isSubChars "aa".data "t".data = false ∧
    parse_filename ("xa" ++ "aa" ++ "t" ++ ".mp3")
        ("{artist}" ++ "aa" ++ "{title}") = some ("x", "at") ∧
    some (("x" : String), ("at" : String)) ≠
      some (String.mk (pyStrip "xa".data), String.mk (pyStrip "t".data)) := by
  decide

/-- C3 (amended): for every pattern of the shape
`{artist}<sep>{title}` with non-empty literal separator and exactly one
occurrence of each placeholder, and all non-empty newline-free artist
and title such that the separator does not occur case-insensitively in
`artist ++ sep ++ title` at any position strictly between 1 and the
artist length (in particular it may not straddle the artist/separator
boundary), parsing `artist ++ sep ++ title ++ extension` recovers
exactly the whitespace-stripped artist and title. -/
theorem C3_roundtrip_amended (artist sep title ext : String)
    (hA : artist.data ≠ []) (hT : title.data ≠ []) (hS : sep.data ≠ [])
    (hAnl : noNl artist.data = true) (hTnl : noNl title.data = true)
    (hocc1 : countOcc artistPh ("{artist}" ++ sep ++ "{title}").data = 1)
    (hocc2 : countOcc titlePh ("{artist}" ++ sep ++ "{title}").data = 1)
    (hbound : ∀ p, 1 ≤ p → p < artist.data.length →
      stripPrefixCI sep.data
        ((artist.data ++ sep.data ++ title.data).drop p) = none)
    (hext : ∃ e, ext.data = '.' :: e ∧ e ≠ [] ∧ '.' ∉ e) :
    parse_filename (artist ++ sep ++ title ++ ext)
        ("{artist}" ++ sep ++ "{title}") =
      some (String.mk (pyStrip artist.data), String.mk (pyStrip title.data)) := by
  obtain ⟨e, he, hene, hdot⟩ := hext
  have hdata : (artist ++ sep ++ title ++ ext).data =
      (artist.data ++ sep.data ++ title.data) ++ '.' :: e := by
    rw [String.data_append, String.data_append, String.data_append, he]
  have hstem : (stemOf (artist ++ sep ++ title ++ ext)).data =
      artist.data ++ sep.data ++ title.data :=
    stemOf_data _ _ _ hdata (by simp [hA]) hene hdot
  have hm : mtch [Tok.capA, Tok.lit sep.data, Tok.capT]
      (artist.data ++ sep.data ++ title.data) =
      some (some artist.data, some title.data) :=
    mtch_three _ _ _ hA hT hAnl hTnl hbound
  rw [parse_filename, tokenize_pattern sep hS hocc1 hocc2, pyFullMatch, hstem, hm]

/-- C3 witness: the default pattern round-trips a concrete artist/title
pair whose separator occurs nowhere before the boundary. -/
theorem C3_witness :
    parse_filename ("Pink Floyd" ++ " - " ++ "Dogs" ++ ".mp3")
        ("{artist}" ++ " - " ++ "{title}") =
      some (String.mk (pyStrip "Pink Floyd".data),
        String.mk (pyStrip "Dogs".data)) :=
  C3_roundtrip_amended "Pink Floyd" " - " "Dogs" ".mp3"
    (by decide) (by decide) (by decide) (by decide) (by decide)
    (by decide) (by decide)
    (by
      intro p h1 h2
      rw [show "Pink Floyd".data.length = 10 from by decide] at h2
      interval_cases p <;> decide)
    ⟨"mp3".data, by decide, by decide, by decide⟩
